import Mathlib

/-!
# data-visitor-dispatcher: registry fan-out and per-subscriber worker

Shallow embedding of `src/data_dispatcher.h` (class `DataDispatcher`) and
`src/data_visitor.h` (class `DataVisitor`).

* A `std::shared_ptr<T>` is modelled by `Option`: `none` is the null pointer.
  For payloads the pointee is immutable after creation, so the pointer is
  identified with the `Data` it points to.  For subscribers identity matters
  (`std::remove` compares pointers), so a handle is an address and the
  `DataVisitor` objects live in a heap indexed by address.
* `std::vector` and `std::queue` are lists; `push`/`emplace_back` append at the
  back, `front`/`pop` take from the head.
* The worker thread of a `DataVisitor` is a program counter stored in the
  object; `DataVisitor.ProcessData` performs one atomic step of the thread.
  `queue_mutex_` is held by the worker exactly at `WorkerPc.innerCheck` and
  `WorkerPc.parking`.
* The wait set of `cv_` is the position `WorkerPc.blocked`.  The worker
  evaluates the predicate of `cv_.wait` under the mutex (`waiting`); when it
  is false it still holds the mutex (`parking`) and then releases it and
  sleeps in one step (`blocked`).  `Stop` writes `stop_flag_` without the
  mutex, so it can fall between these two steps, and its `notify_all` then
  finds nobody to wake.  `Notify` pushes under the mutex, which the worker
  holds until it is asleep, so its `notify_one` cannot be missed: a blocked
  worker with a non-empty queue has a wake-up pending.  A wake-up without
  notification, which a condition variable may deliver, is the event
  `Action.wakeup`.
* The callers of the registry are threads that take their steps in any order
  (`threadStep`, `runThreads`).  `mutex_` is its owner, if any; a thread that
  finds it taken does not move.  Iterators into `visitors_` are the content
  of the vector when they were taken and a position; using them after the
  vector was modified is undefined behaviour (`ThreadPc.torn`).
* A callback is opaque code.  Its observable behaviour is the record of the
  payloads it was called with and, per call, whether it returned, threw an
  exception derived from `std::exception`, or threw anything else.
-/

namespace Spec2Proof

/-! ## Data model -/

/-- The payload struct of `data.h`, reconstructed from its uses in
`src/receiver.h` (`data->id = id; data->content = content;`). -/
structure Data where
  id : Int
  content : String
deriving DecidableEq

/-- A value of type `std::shared_ptr<Data>`; `none` is the null pointer. -/
abbrev DataPtr := Option Data

/-- Identity of a `DataVisitor` object. -/
abbrev Addr := Nat

/-- A value of type `std::shared_ptr<DataVisitor>`; `none` is the null pointer.
`operator==` on two handles compares the addresses. -/
abbrev VisitorPtr := Option Addr

/-- What one call `callback_(data)` does from the point of view of the caller. -/
inductive CallResult where
  /-- The call returned normally. -/
  | returned
  /-- The call threw an object whose type derives from `std::exception`;
  `what` is the text of `e.what()`. -/
  | threwStd (what : String)
  /-- The call threw an object of any other type (for instance `throw 42;`). -/
  | threwOther
deriving DecidableEq

/-- A non-empty `std::function<void(std::shared_ptr<Data>)>`.  The first
argument is the list of payloads of the earlier calls, so that a callback with
internal state is covered. -/
abbrev Callback := List DataPtr → DataPtr → CallResult

/-- Position of the worker thread inside `DataVisitor::ProcessData`
(`src/data_visitor.h`, lines 43-68). -/
inductive WorkerPc where
  /-- About to evaluate the outer condition `while (!stop_flag_)`. -/
  | outerCheck
  /-- At `cv_.wait(lock, pred)`, awake: about to evaluate the predicate under
  the mutex (on entry, or after a wake-up). -/
  | waiting
  /-- Inside `cv_.wait`: the predicate was false, the mutex is still held, the
  thread is about to release it and sleep. -/
  | parking
  /-- Inside `cv_.wait`: asleep in the wait set of `cv_`, the mutex released. -/
  | blocked
  /-- Holding `queue_mutex_`, about to evaluate `while (!data_queue_.empty())`. -/
  | innerCheck
  /-- After `front`, `pop` and `lock.unlock()`: about to run
  `if (callback_) try ... catch` on `data`. -/
  | calling (data : DataPtr)
  /-- After the callback block, about to run `lock.lock()`. -/
  | relock
  /-- The function `ProcessData` has returned; the thread can be joined. -/
  | exited
  /-- An exception left `ProcessData`: `std::terminate` was called. -/
  | terminated
deriving DecidableEq

/-- The worker owns `queue_mutex_` between the return of `cv_.wait` or
`lock.lock()` and the next `lock.unlock()` or the end of the loop body. -/
def WorkerPc.holdsLock : WorkerPc → Bool
  | .innerCheck => true
  | .parking => true
  | _ => false

/-- Effect of a wake-up on the worker: a thread asleep in `cv_.wait` becomes
ready to evaluate the predicate again; any other thread is not affected. -/
def WorkerPc.woken : WorkerPc → WorkerPc
  | .blocked => .waiting
  | pc => pc

/-- The payload that has been popped and not yet offered to the callback. -/
def WorkerPc.inflight : WorkerPc → List DataPtr
  | .calling data => [data]
  | _ => []

/-- State of one `DataVisitor` object (`src/data_visitor.h`, lines 76-81).
`callback_` is `none` for an empty `std::function`.  `pc` stands for
`worker_thread_`.  `invoked` and `cerr` are observation records: the payloads
the callback has been called with, and the lines written to `std::cerr`. -/
structure DataVisitor where
  callback_ : Option Callback
  data_queue_ : List DataPtr
  stop_flag_ : Bool
  pc : WorkerPc
  invoked : List DataPtr
  cerr : List String

namespace DataVisitor

/-- Constructor (`src/data_visitor.h`, lines 20-22): stores the callback,
clears the stop flag and starts the worker thread at the top of `ProcessData`. -/
def construct (callback : Option Callback) : DataVisitor :=
  { callback_ := callback, data_queue_ := [], stop_flag_ := false,
    pc := .outerCheck, invoked := [], cerr := [] }

/-- `DataVisitor::Notify` (lines 33-39): under `queue_mutex_`, push `data` at
the back of the queue; then `cv_.notify_one()`.  There is no test of
`stop_flag_` or of the worker's state.  The notification is not a separate
piece of state: the worker goes to sleep only with the queue empty and the
mutex held, so a sleeping worker with a non-empty queue has been notified, and
`ProcessData` lets exactly such a worker continue. -/
def Notify (v : DataVisitor) (data : DataPtr) : DataVisitor :=
  { v with data_queue_ := v.data_queue_ ++ [data] }

/-- `DataVisitor::Stop` (lines 71-74): `stop_flag_ = true; cv_.notify_all();`.
The flag is written without `queue_mutex_`; `notify_all` wakes the worker if
it is asleep in `cv_.wait` and has no effect otherwise. -/
def Stop (v : DataVisitor) : DataVisitor :=
  { v with stop_flag_ := true, pc := v.pc.woken }

/-- A wake-up of the worker that no `notify` has asked for. -/
def wakeup (v : DataVisitor) : DataVisitor :=
  { v with pc := v.pc.woken }

/-- One atomic step of the worker thread in `DataVisitor::ProcessData`
(lines 43-68).  A worker asleep in `cv_.wait` with nothing in the queue, and a
worker that has exited or was terminated, does not change the state. -/
def ProcessData (v : DataVisitor) : DataVisitor :=
  match v.pc with
  | .outerCheck =>
      -- while (!stop_flag_)
      if v.stop_flag_ then { v with pc := .exited } else { v with pc := .waiting }
  | .waiting =>
      -- cv_.wait(lock, [this]() { return stop_flag_ || !data_queue_.empty(); });
      if v.stop_flag_ || !v.data_queue_.isEmpty then { v with pc := .innerCheck }
      else { v with pc := .parking }
  | .parking =>
      -- inside wait: release the mutex and sleep
      { v with pc := .blocked }
  | .blocked =>
      -- woken by the notify_one of a Notify: the predicate holds
      if !v.data_queue_.isEmpty then { v with pc := .innerCheck } else v
  | .innerCheck =>
      -- while (!data_queue_.empty()) { data = front(); pop(); lock.unlock(); ...
      match v.data_queue_ with
      | [] => { v with pc := .outerCheck }
      | data :: rest => { v with data_queue_ := rest, pc := .calling data }
  | .calling data =>
      -- if (callback_) { try { callback_(data); } catch (const std::exception& e) { ... } }
      match v.callback_ with
      | none => { v with pc := .relock }
      | some cb =>
          match cb v.invoked data with
          | .returned => { v with invoked := v.invoked ++ [data], pc := .relock }
          | .threwStd what =>
              { v with invoked := v.invoked ++ [data],
                       cerr := v.cerr ++ ["Exception in callback: " ++ what],
                       pc := .relock }
          | .threwOther => { v with invoked := v.invoked ++ [data], pc := .terminated }
  | .relock =>
      -- lock.lock();
      { v with pc := .innerCheck }
  | .exited => v
  | .terminated => v

/-- The worker thread runs for `fuel` steps with no other thread interfering. -/
def runWorker : Nat → DataVisitor → DataVisitor
  | 0, v => v
  | fuel + 1, v => runWorker fuel v.ProcessData

/-- The events of one subscriber: a caller runs `Notify(data)`, the destructor
runs `Stop()` (the method is private, lines 25-30 are its only caller), the
worker thread takes one step, or the worker is woken without notification. -/
inductive Action where
  | notify (data : DataPtr)
  | stop
  | worker
  | wakeup
deriving DecidableEq

/-- One event.  `Notify` takes `queue_mutex_`, so it cannot happen while the
worker holds it; `stop_flag_` is atomic and is written without the mutex. -/
def step (v : DataVisitor) : Action → Option DataVisitor
  | .notify data => if v.pc.holdsLock then none else some (v.Notify data)
  | .stop => some v.Stop
  | .worker => some v.ProcessData
  | .wakeup => some v.wakeup

/-- An interleaving of events, from left to right; `none` when an event is not
possible in the state it meets. -/
def exec (v : DataVisitor) : List Action → Option DataVisitor
  | [] => some v
  | a :: rest =>
      match v.step a with
      | none => none
      | some v' => exec v' rest

/-- The payloads passed to `Notify` in an interleaving, in order. -/
def notified : List Action → List DataPtr
  | [] => []
  | .notify data :: rest => data :: notified rest
  | _ :: rest => notified rest

end DataVisitor

/-- The memory of the program as far as the registry is concerned: the member
`visitors_` of the singleton `DataDispatcher::Instance()` and the `DataVisitor`
objects the handles point to. -/
structure Program where
  visitors_ : List VisitorPtr
  heap : Addr → DataVisitor

/-- Replace the object at address `a`. -/
def store (heap : Addr → DataVisitor) (a : Addr) (v : DataVisitor) : Addr → DataVisitor :=
  fun b => if b = a then v else heap b

namespace DataDispatcher

/-- `DataDispatcher::RegisterVisitor` (`src/data_dispatcher.h`, lines 27-30):
`visitors_.emplace_back(visitor)`. -/
def RegisterVisitor (s : Program) (visitor : VisitorPtr) : Program :=
  { s with visitors_ := s.visitors_ ++ [visitor] }

/-- The idiom `v.erase(std::remove(v.begin(), v.end(), value), v.end())`:
`std::remove` moves the elements that do not compare equal to `value` to the
front, in order, and `erase` cuts the rest off. -/
def eraseRemove : List VisitorPtr → VisitorPtr → List VisitorPtr
  | [], _ => []
  | x :: rest, value => if x = value then eraseRemove rest value else x :: eraseRemove rest value

/-- `DataDispatcher::UnregisterVisitor` (lines 33-36). -/
def UnregisterVisitor (s : Program) (visitor : VisitorPtr) : Program :=
  { s with visitors_ := eraseRemove s.visitors_ visitor }

/-- The loop of `Dispatch` (lines 41-45):
`for (auto& visitor : visitors_) { if (visitor) { visitor->Notify(data); } }`. -/
def dispatchLoop (data : DataPtr) : List VisitorPtr → (Addr → DataVisitor) → (Addr → DataVisitor)
  | [], heap => heap
  | none :: rest, heap => dispatchLoop data rest heap
  | some a :: rest, heap => dispatchLoop data rest (store heap a ((heap a).Notify data))

/-- `DataDispatcher::Dispatch` (lines 39-46).  It returns `void`, has no error
path, and does not write `visitors_`. -/
def Dispatch (s : Program) (data : DataPtr) : Program :=
  { s with heap := dispatchLoop data s.visitors_ s.heap }

/-- The loop of `Dispatch` with the pointer operations spelled out.
`if (visitor)` is `operator bool`, true exactly for a non-null handle.
`visitor->Notify(data)` goes through `operator->`; on a null handle that is
undefined behaviour, which is the result `none`. -/
def dispatchLoopDeref (data : DataPtr) :
    List VisitorPtr → (Addr → DataVisitor) → Option (Addr → DataVisitor)
  | [], heap => some heap
  | visitor :: rest, heap =>
      if visitor.isSome then
        match visitor with
        | none => none
        | some a => dispatchLoopDeref data rest (store heap a ((heap a).Notify data))
      else dispatchLoopDeref data rest heap

/-- The calls `Notify(data)` on the objects at the given addresses, one after
the other. -/
def notifyEach (data : DataPtr) : List Addr → (Addr → DataVisitor) → (Addr → DataVisitor)
  | [], heap => heap
  | a :: rest, heap => notifyEach data rest (store heap a ((heap a).Notify data))

end DataDispatcher

/-! ## Threads calling the registry -/

/-- One call of a public method of `DataDispatcher`. -/
inductive Call where
  | register (visitor : VisitorPtr)
  | unregister (visitor : VisitorPtr)
  | dispatch (data : DataPtr)
deriving DecidableEq

/-- The call executed in one piece, with no other thread running. -/
def Call.run (s : Program) : Call → Program
  | .register visitor => DataDispatcher.RegisterVisitor s visitor
  | .unregister visitor => DataDispatcher.UnregisterVisitor s visitor
  | .dispatch data => DataDispatcher.Dispatch s data

/-- Position of a thread inside its call.  All three methods start with
`std::lock_guard<std::mutex> lock(mutex_);` on the same member `mutex_`
(`src/data_dispatcher.h`, lines 28, 34, 40). -/
inductive ThreadPc where
  /-- The call has not taken the mutex yet. -/
  | idle
  /-- The thread owns `mutex_`; the statement after the guard is next. -/
  | entered
  /-- Inside the range-for of `Dispatch`: `snap` is the content of `visitors_`
  when `begin()` and `end()` were taken, `i` the position of the iterator. -/
  | inLoop (data : DataPtr) (snap : List VisitorPtr) (i : Nat)
  /-- The body is finished; the destructor of the guard is next. -/
  | leaving
  /-- The call has returned. -/
  | done
  /-- The vector was modified while the loop held iterators into it: the
  iterators are invalid and the behaviour is undefined. -/
  | torn
deriving DecidableEq

/-- The positions at which a thread holds `mutex_`. -/
def ThreadPc.critical : ThreadPc → Bool
  | .entered => true
  | .inLoop _ _ _ => true
  | .leaving => true
  | .torn => true
  | _ => false

/-- The registry shared by the calling threads: the memory, the owner of
`mutex_` if it is taken, the position of every thread, and the threads whose
call has returned, in the order in which they released the mutex. -/
structure Shared where
  mem : Program
  mutex_ : Option Nat
  pc : Nat → ThreadPc
  log : List Nat

/-- Move thread `t` to position `x`. -/
def setPc (pc : Nat → ThreadPc) (t : Nat) (x : ThreadPc) : Nat → ThreadPc :=
  fun u => if u = t then x else pc u

/-- Before any call: the mutex is free and every thread is about to call. -/
def Shared.start (mem : Program) : Shared :=
  { mem := mem, mutex_ := none, pc := fun _ => .idle, log := [] }

/-- One step of thread `t`, which executes the call `calls t`.  A thread that
finds the mutex taken stays where it is. -/
def threadStep (calls : Nat → Call) (s : Shared) (t : Nat) : Shared :=
  match s.pc t with
  | .idle =>
      -- std::lock_guard<std::mutex> lock(mutex_);
      match s.mutex_ with
      | none => { s with mutex_ := some t, pc := setPc s.pc t .entered }
      | some _ => s
  | .entered =>
      match calls t with
      | .register visitor =>
          -- visitors_.emplace_back(visitor);
          { s with mem := DataDispatcher.RegisterVisitor s.mem visitor,
                   pc := setPc s.pc t .leaving }
      | .unregister visitor =>
          -- visitors_.erase(std::remove(...), visitors_.end());
          { s with mem := DataDispatcher.UnregisterVisitor s.mem visitor,
                   pc := setPc s.pc t .leaving }
      | .dispatch data =>
          -- for (auto& visitor : visitors_): begin() and end() are taken
          { s with pc := setPc s.pc t (.inLoop data s.mem.visitors_ 0) }
  | .inLoop data snap i =>
      if s.mem.visitors_ ≠ snap then { s with pc := setPc s.pc t .torn }
      else
        match snap.get? i with
        | none =>
            -- the iterator has reached end()
            { s with pc := setPc s.pc t .leaving }
        | some none =>
            -- if (visitor) is false
            { s with pc := setPc s.pc t (.inLoop data snap (i + 1)) }
        | some (some a) =>
            -- visitor->Notify(data);
            { s with mem := { s.mem with
                                heap := store s.mem.heap a ((s.mem.heap a).Notify data) },
                     pc := setPc s.pc t (.inLoop data snap (i + 1)) }
  | .leaving =>
      -- the destructor of the guard releases the mutex
      { s with mutex_ := none, pc := setPc s.pc t .done, log := s.log ++ [t] }
  | .done => s
  | .torn => s

/-- The threads run in the order given by the schedule. -/
def runThreads (calls : Nat → Call) : Shared → List Nat → Shared
  | s, [] => s
  | s, t :: rest => runThreads calls (threadStep calls s t) rest

/-- The calls of the given threads executed one after the other, each in one
piece. -/
def replay (calls : Nat → Call) : Program → List Nat → Program
  | mem, [] => mem
  | mem, t :: rest => replay calls ((calls t).run mem) rest

/-- What the memory must be at each position of the thread that holds the
mutex, relative to the memory `base` at the moment the mutex was taken. -/
def atPosition (calls : Nat → Call) (base mem : Program) (t : Nat) : ThreadPc → Prop
  | .entered => mem = base
  | .inLoop data snap i =>
      calls t = .dispatch data ∧ snap = base.visitors_ ∧ mem.visitors_ = base.visitors_ ∧
      mem.heap = DataDispatcher.dispatchLoop data (snap.take i) base.heap
  | .leaving => mem = (calls t).run base
  | .torn => False
  | _ => True

/-- The facts that hold in every state the threads can reach from
`Shared.start init`. -/
structure Consistent (calls : Nat → Call) (init : Program) (s : Shared) : Prop where
  /-- A thread is inside a critical section exactly when it owns the mutex. -/
  owner : ∀ t, (s.pc t).critical = true ↔ s.mutex_ = some t
  /-- With the mutex free the memory is the result of the finished calls. -/
  free : s.mutex_ = none → s.mem = replay calls init s.log
  /-- With the mutex taken the memory is that result plus the part of its call
  the owner has executed. -/
  held : ∀ t, atPosition calls (replay calls init s.log) s.mem t (s.pc t)
  /-- The log holds exactly the threads whose call has returned. -/
  logged : ∀ t, t ∈ s.log ↔ s.pc t = .done
  /-- No thread is logged twice. -/
  once : s.log.Nodup

/-! ## Sample values -/

/-- Payload with the given id and empty content. -/
def pkt (id : Int) : DataPtr := some { id := id, content := "" }

/-- A callback that always returns normally. -/
def quietCallback : Callback := fun _ _ => .returned

/-- A callback that throws a `std::exception` on the payload with id 2. -/
def stdThrowOn2 : Callback := fun _ data =>
  if data = pkt 2 then .threwStd "bad" else .returned

/-- A callback that executes `throw 42;` on the payload with id 2. -/
def intThrowOn2 : Callback := fun _ data =>
  if data = pkt 2 then .threwOther else .returned

/-- A heap in which every object is a freshly constructed subscriber. -/
def freshHeap : Addr → DataVisitor := fun _ => DataVisitor.construct (some quietCallback)

/-- The state of a subscriber with the given callback after `Stop()` and the
exit of its worker, all payloads `queue` still pending. -/
def stoppedWith (cb : Callback) (queue : List DataPtr) : DataVisitor :=
  { callback_ := some cb, data_queue_ := queue, stop_flag_ := true,
    pc := .exited, invoked := [], cerr := [] }

/-- The state of a subscriber with the given callback whose worker is inside
the inner loop, holding the mutex, when the stop flag is set, all payloads
`queue` pending. -/
def stoppingWith (cb : Callback) (queue : List DataPtr) : DataVisitor :=
  { callback_ := some cb, data_queue_ := queue, stop_flag_ := true,
    pc := .innerCheck, invoked := [], cerr := [] }

/-- Three threads: thread 0 dispatches payload 1, thread 1 unregisters the
handle of address 0, every other thread registers the handle of address 1. -/
def sampleCalls : Nat → Call
  | 0 => .dispatch (pkt 1)
  | 1 => .unregister (some 0)
  | _ => .register (some 1)

/-- The handle of address 0 is registered twice, with a null entry between. -/
def sampleProgram : Program :=
  { visitors_ := [some 0, none, some 0], heap := freshHeap }

/-- Threads 1 and 2 try to enter while thread 0 is inside `Dispatch`; then
thread 1 runs, then thread 2. -/
def sampleSchedule : List Nat :=
  [0, 1, 0, 2, 0, 1, 0, 0, 2, 0, 0, 1, 1, 1, 2, 2, 2]

/-! ## Registry: lemmas -/

open DataDispatcher DataVisitor

theorem store_same (heap : Addr → DataVisitor) (a : Addr) (v : DataVisitor) :
    store heap a v a = v := by
  simp [store]

theorem store_other (heap : Addr → DataVisitor) (a b : Addr) (v : DataVisitor) (h : b ≠ a) :
    store heap a v b = heap b := by
  simp [store, h]

/-- Effect of the dispatch loop on the object at one address: only its queue
changes, by one copy of the payload per entry of the list that holds the
address. -/
theorem dispatchLoop_apply (data : DataPtr) (vs : List VisitorPtr) :
    ∀ (heap : Addr → DataVisitor) (a : Addr),
      dispatchLoop data vs heap a =
        { heap a with
          data_queue_ := (heap a).data_queue_ ++ List.replicate (vs.count (some a)) data } := by
  induction vs with
  | nil => intro heap a; simp [dispatchLoop]
  | cons x rest ih =>
      intro heap a
      cases x with
      | none => simp [dispatchLoop, ih]
      | some b =>
          rw [dispatchLoop, ih]
          by_cases hab : a = b
          · subst hab
            simp [store_same, Notify, List.count_cons_self, List.replicate_succ]
          · have hne : (some b == some a) = false := by
              simp [Ne.symm hab]
            simp [store_other _ _ _ _ hab, List.count_cons, hne]

theorem eraseRemove_eq_filter (vs : List VisitorPtr) (value : VisitorPtr) :
    eraseRemove vs value = vs.filter (fun x => decide (x ≠ value)) := by
  induction vs with
  | nil => rfl
  | cons x rest ih =>
      by_cases hx : x = value
      · simp [eraseRemove, hx, ih]
      · simp [eraseRemove, hx, ih]

theorem eraseRemove_of_not_mem (vs : List VisitorPtr) (value : VisitorPtr) (h : value ∉ vs) :
    eraseRemove vs value = vs := by
  rw [eraseRemove_eq_filter, List.filter_eq_self]
  intro x hx
  have : x ≠ value := fun hxv => h (hxv ▸ hx)
  simpa using this

theorem not_mem_eraseRemove (vs : List VisitorPtr) (value : VisitorPtr) :
    value ∉ eraseRemove vs value := by
  rw [eraseRemove_eq_filter]
  simp [List.mem_filter]

/-! ## Registry: the claims -/

/-- C1: `Dispatch(P)` appends `P` at the back of the queue of a subscriber once
per entry of `visitors_` that holds its handle: the new queue is the old queue
followed by as many copies of `P` as the handle has entries (one copy for a
handle registered once, `k` copies for a handle registered `k` times). -/
theorem C1_dispatch_appends_once_per_entry (s : Program) (data : DataPtr) (a : Addr) :
    ((Dispatch s data).heap a).data_queue_ =
      (s.heap a).data_queue_ ++ List.replicate (s.visitors_.count (some a)) data := by
  have hd : (Dispatch s data).heap a = dispatchLoop data s.visitors_ s.heap a := rfl
  rw [hd, dispatchLoop_apply]

/-- C3: `Dispatch(P)` leaves the object of every subscriber whose handle is not
in `visitors_` as it was.  After `UnregisterVisitor(S)` a `Dispatch(P)` does
not touch `S`, however many entries held its handle before.  In the run
register `S`, dispatch `d1`, unregister `S`, dispatch `d2` the queue of `S`
gains copies of `d1` only, one per entry that held its handle during the first
dispatch, and none of `d2`; when `S` had no entry before the run that is `d1`
once.  `Dispatch` on an empty registry changes nothing. -/
theorem C3_dispatch_skips_unregistered (s : Program) (d1 d2 : DataPtr) (a : Addr) :
    (some a ∉ s.visitors_ → (Dispatch s d1).heap a = s.heap a) ∧
    (Dispatch (UnregisterVisitor s (some a)) d1).heap a = s.heap a ∧
    ((Dispatch (UnregisterVisitor (Dispatch (RegisterVisitor s (some a)) d1) (some a)) d2).heap
        a).data_queue_ =
      (s.heap a).data_queue_ ++ List.replicate (s.visitors_.count (some a) + 1) d1 ∧
    (some a ∉ s.visitors_ →
      ((Dispatch (UnregisterVisitor (Dispatch (RegisterVisitor s (some a)) d1) (some a)) d2).heap
        a).data_queue_ = (s.heap a).data_queue_ ++ [d1]) ∧
    Dispatch { visitors_ := [], heap := s.heap } d1 = { visitors_ := [], heap := s.heap } := by
  have hgone : (eraseRemove s.visitors_ (some a)).count (some a) = 0 :=
    List.count_eq_zero_of_not_mem (not_mem_eraseRemove _ _)
  have hgone2 : (eraseRemove (s.visitors_ ++ [some a]) (some a)).count (some a) = 0 :=
    List.count_eq_zero_of_not_mem (not_mem_eraseRemove _ _)
  have hrun : ((Dispatch (UnregisterVisitor (Dispatch (RegisterVisitor s (some a)) d1)
      (some a)) d2).heap a).data_queue_ =
      (s.heap a).data_queue_ ++ List.replicate (s.visitors_.count (some a) + 1) d1 := by
    simp [Dispatch, UnregisterVisitor, RegisterVisitor, dispatchLoop_apply, hgone2,
      List.count_append]
  refine ⟨?_, ?_, hrun, ?_, ?_⟩
  · intro h
    have hcount : s.visitors_.count (some a) = 0 := List.count_eq_zero_of_not_mem h
    simp [Dispatch, dispatchLoop_apply, hcount]
  · simp [Dispatch, UnregisterVisitor, dispatchLoop_apply, hgone]
  · intro h
    have hcount : s.visitors_.count (some a) = 0 := List.count_eq_zero_of_not_mem h
    rw [hrun, hcount]
    rfl
  · simp [Dispatch, dispatchLoop]

/-- C3 at concrete inputs.  The handle of address 0 is registered twice and
unregistered: the following dispatch leaves the object at address 0 alone and
serves address 1.  Address 0 is not registered: after register, dispatch 1,
unregister, dispatch 2 its queue holds payload 1 only. -/
theorem C3_dispatch_skips_unregistered_witness :
    (Dispatch (UnregisterVisitor { visitors_ := [some 0, some 1, some 0], heap := freshHeap }
        (some 0)) (pkt 2)).heap 0 = freshHeap 0 ∧
    ((Dispatch (UnregisterVisitor { visitors_ := [some 0, some 1, some 0], heap := freshHeap }
        (some 0)) (pkt 2)).heap 1).data_queue_ = [pkt 2] ∧
    ((Dispatch (UnregisterVisitor (Dispatch (RegisterVisitor
        { visitors_ := [some 1], heap := freshHeap } (some 0)) (pkt 1)) (some 0)) (pkt 2)).heap
        0).data_queue_ = [pkt 1] :=
  ⟨(C3_dispatch_skips_unregistered { visitors_ := [some 0, some 1, some 0], heap := freshHeap }
      (pkt 2) (pkt 2) 0).2.1,
   by decide,
   (C3_dispatch_skips_unregistered { visitors_ := [some 1], heap := freshHeap }
      (pkt 1) (pkt 2) 0).2.2.2.1 (by decide)⟩

/-- C4: `UnregisterVisitor(h)` keeps exactly the entries whose handle differs
from `h`, in their original order: no entry equal to `h` is left, every other
handle keeps its number of entries, the result is a subsequence of the
original, nothing changes when `h` has no entry, and no `DataVisitor` object
is read or written (entries are compared by address, never by content). -/
theorem C4_unregister_removes_identical (s : Program) (h : VisitorPtr) :
    (UnregisterVisitor s h).visitors_ = s.visitors_.filter (fun x => decide (x ≠ h)) ∧
    h ∉ (UnregisterVisitor s h).visitors_ ∧
    (∀ x, x ≠ h → (UnregisterVisitor s h).visitors_.count x = s.visitors_.count x) ∧
    List.Sublist (UnregisterVisitor s h).visitors_ s.visitors_ ∧
    (h ∉ s.visitors_ → UnregisterVisitor s h = s) ∧
    (UnregisterVisitor s h).heap = s.heap := by
  refine ⟨eraseRemove_eq_filter _ _, not_mem_eraseRemove _ _, ?_, ?_, ?_, rfl⟩
  · intro x hx
    show (eraseRemove s.visitors_ h).count x = _
    rw [eraseRemove_eq_filter, List.count_filter]
    simpa using hx
  · show List.Sublist (eraseRemove s.visitors_ h) _
    rw [eraseRemove_eq_filter]
    exact List.filter_sublist _
  · intro hn
    show ({ s with visitors_ := eraseRemove s.visitors_ h } : Program) = s
    rw [eraseRemove_of_not_mem _ _ hn]

/-- C4 at a concrete input: the objects at addresses 0 and 1 have the same
content, and only the entries holding address 0 are removed. -/
theorem C4_unregister_removes_identical_witness :
    freshHeap 0 = freshHeap 1 ∧
    (UnregisterVisitor { visitors_ := [some 0, some 1, none, some 0], heap := freshHeap }
        (some 0)).visitors_ = [some 1, none] ∧
    UnregisterVisitor { visitors_ := [some 1, none], heap := freshHeap } (some 0) =
      { visitors_ := [some 1, none], heap := freshHeap } :=
  ⟨rfl,
   (C4_unregister_removes_identical
      { visitors_ := [some 0, some 1, none, some 0], heap := freshHeap } (some 0)).1.trans
      (by decide),
   (C4_unregister_removes_identical
      { visitors_ := [some 1, none], heap := freshHeap } (some 0)).2.2.2.2.1 (by decide)⟩

/-- C5: `RegisterVisitor(h)` yields the old collection followed by `h`: the old
entries are the first entries of the result, `h` is the last one, the length
and the number of entries holding `h` both grow by one (also when `h` already
has entries), and no `DataVisitor` object changes. -/
theorem C5_register_appends (s : Program) (h : VisitorPtr) :
    (RegisterVisitor s h).visitors_ = s.visitors_ ++ [h] ∧
    (RegisterVisitor s h).visitors_.take s.visitors_.length = s.visitors_ ∧
    (RegisterVisitor s h).visitors_.getLast? = some h ∧
    (RegisterVisitor s h).visitors_.length = s.visitors_.length + 1 ∧
    (RegisterVisitor s h).visitors_.count h = s.visitors_.count h + 1 ∧
    (RegisterVisitor s h).heap = s.heap := by
  refine ⟨rfl, ?_, ?_, ?_, ?_, rfl⟩
  · simp [RegisterVisitor]
  · simp [RegisterVisitor]
  · simp [RegisterVisitor]
  · simp [RegisterVisitor, List.count_append]

/-- C10: `Dispatch(P)` does not write `visitors_`, and of every `DataVisitor`
object it changes at most the queue, which it only extends at the back: the
callback, the record of handler invocations, the stop flag, the position of
the worker thread and the error log are as before.  `Dispatch` is a total
function: it has a result for every registry content, null entries
included. -/
theorem C10_dispatch_frame (s : Program) (data : DataPtr) :
    (Dispatch s data).visitors_ = s.visitors_ ∧
    ∀ a : Addr,
      (Dispatch s data).heap a =
        { s.heap a with
          data_queue_ :=
            (s.heap a).data_queue_ ++ List.replicate (s.visitors_.count (some a)) data } ∧
      ((Dispatch s data).heap a).invoked = (s.heap a).invoked ∧
      ((Dispatch s data).heap a).stop_flag_ = (s.heap a).stop_flag_ ∧
      ((Dispatch s data).heap a).pc = (s.heap a).pc ∧
      ((Dispatch s data).heap a).callback_ = (s.heap a).callback_ ∧
      ((Dispatch s data).heap a).cerr = (s.heap a).cerr := by
  refine ⟨rfl, fun a => ?_⟩
  have key := dispatchLoop_apply data s.visitors_ s.heap a
  have hd : (Dispatch s data).heap a = dispatchLoop data s.visitors_ s.heap a := rfl
  refine ⟨key, ?_, ?_, ?_, ?_, ?_⟩ <;> rw [hd, key]

/-! ## Subscriber: lemmas -/

theorem woken_inflight (pc : WorkerPc) : pc.woken.inflight = pc.inflight := by
  cases pc <;> rfl

theorem woken_exited (pc : WorkerPc) : pc.woken = .exited ↔ pc = .exited := by
  cases pc <;> simp [WorkerPc.woken]

theorem ProcessData_stop_flag (v : DataVisitor) : v.ProcessData.stop_flag_ = v.stop_flag_ := by
  unfold ProcessData
  repeat' split
  all_goals rfl

theorem ProcessData_callback (v : DataVisitor) : v.ProcessData.callback_ = v.callback_ := by
  unfold ProcessData
  repeat' split
  all_goals rfl

/-- A worker step moves payloads from the queue to the worker and from the
worker to the callback, and neither drops nor copies one. -/
theorem ProcessData_conserve (v : DataVisitor) (cb : Callback) (hcb : v.callback_ = some cb) :
    v.ProcessData.invoked ++ v.ProcessData.pc.inflight ++ v.ProcessData.data_queue_ =
      v.invoked ++ v.pc.inflight ++ v.data_queue_ := by
  obtain ⟨c, q, sf, pc, inv, ce⟩ := v
  simp only at hcb
  subst hcb
  cases pc with
  | outerCheck => cases sf <;> simp [ProcessData, WorkerPc.inflight]
  | waiting =>
      simp only [ProcessData]
      split <;> simp [WorkerPc.inflight]
  | innerCheck => cases q <;> simp [ProcessData, WorkerPc.inflight]
  | calling data =>
      simp only [ProcessData]
      split <;> simp [WorkerPc.inflight]
  | relock => simp [ProcessData, WorkerPc.inflight]
  | parking => simp [ProcessData, WorkerPc.inflight]
  | blocked =>
      simp only [ProcessData]
      split <;> simp [WorkerPc.inflight]
  | exited => simp [ProcessData]
  | terminated => simp [ProcessData]

/-- The worker leaves the loop only through the outer condition, which reads
the stop flag. -/
theorem ProcessData_exited (v : DataVisitor) (h : v.pc = .exited → v.stop_flag_ = true) :
    v.ProcessData.pc = .exited → v.ProcessData.stop_flag_ = true := by
  obtain ⟨c, q, sf, pc, inv, ce⟩ := v
  cases pc with
  | outerCheck => cases sf <;> simp [ProcessData]
  | waiting =>
      simp only [ProcessData]
      split <;> simp
  | innerCheck => cases q <;> simp [ProcessData]
  | calling data =>
      simp only [ProcessData]
      repeat' split
      all_goals simp
  | relock => simp [ProcessData]
  | parking => simp [ProcessData]
  | blocked =>
      simp only [ProcessData]
      split <;> simp
  | exited => simpa [ProcessData] using h
  | terminated => simp [ProcessData]

/-- The three facts every event keeps: the callback is the one given at
construction, an exited worker has seen the stop flag, and the payloads passed
to `Notify` are, in order, those given to the callback, then the one held by
the worker, then those in the queue. -/
theorem step_invariant (v v' : DataVisitor) (cb : Callback) (a : Action)
    (hcb : v.callback_ = some cb) (hex : v.pc = .exited → v.stop_flag_ = true)
    (hstep : v.step a = some v') :
    v'.callback_ = some cb ∧ (v'.pc = .exited → v'.stop_flag_ = true) ∧
    v'.invoked ++ v'.pc.inflight ++ v'.data_queue_ =
      v.invoked ++ v.pc.inflight ++ v.data_queue_ ++ notified [a] := by
  cases a with
  | notify data =>
      simp only [step] at hstep
      split at hstep
      · cases hstep
      · cases hstep
        refine ⟨hcb, hex, ?_⟩
        simp [Notify, notified]
  | stop =>
      cases hstep
      refine ⟨hcb, fun _ => rfl, ?_⟩
      simp [Stop, notified, woken_inflight]
  | worker =>
      cases hstep
      refine ⟨(ProcessData_callback v).trans hcb, ProcessData_exited v hex, ?_⟩
      simp [notified, ProcessData_conserve v cb hcb]
  | wakeup =>
      cases hstep
      refine ⟨hcb, fun h => hex ((woken_exited v.pc).1 h), ?_⟩
      simp [wakeup, notified, woken_inflight]

theorem notified_cons (a : Action) (rest : List Action) :
    notified (a :: rest) = notified [a] ++ notified rest := by
  cases a <;> simp [notified]

theorem exec_invariant (as : List Action) :
    ∀ (v v' : DataVisitor) (cb : Callback),
      v.callback_ = some cb → (v.pc = .exited → v.stop_flag_ = true) →
      exec v as = some v' →
      v'.callback_ = some cb ∧ (v'.pc = .exited → v'.stop_flag_ = true) ∧
      v'.invoked ++ v'.pc.inflight ++ v'.data_queue_ =
        v.invoked ++ v.pc.inflight ++ v.data_queue_ ++ notified as := by
  induction as with
  | nil =>
      intro v v' cb hcb hex hrun
      cases hrun
      exact ⟨hcb, hex, by simp [notified]⟩
  | cons a rest ih =>
      intro v v' cb hcb hex hrun
      simp only [exec] at hrun
      split at hrun
      · cases hrun
      · rename_i w hw
        obtain ⟨h1, h2, h3⟩ := step_invariant v w cb a hcb hex hw
        obtain ⟨k1, k2, k3⟩ := ih w v' cb h1 h2 hrun
        refine ⟨k1, k2, ?_⟩
        rw [k3, h3, notified_cons a rest]
        simp

theorem exec_append (as bs : List Action) :
    ∀ v : DataVisitor,
      exec v (as ++ bs) = (match exec v as with
        | none => none
        | some w => exec w bs) := by
  induction as with
  | nil => intro v; rfl
  | cons a rest ih =>
      intro v
      simp only [List.cons_append, exec]
      cases v.step a with
      | none => rfl
      | some w => exact ih w

theorem exec_workers (fuel : Nat) :
    ∀ v : DataVisitor, exec v (List.replicate fuel Action.worker) = some (runWorker fuel v) := by
  induction fuel with
  | zero => intro v; rfl
  | succ n ih =>
      intro v
      simp only [List.replicate_succ, exec, step, runWorker]
      exact ih _

theorem exec_notifies (ps : List DataPtr) :
    ∀ v : DataVisitor, v.pc.holdsLock = false →
      exec v (ps.map Action.notify) = some { v with data_queue_ := v.data_queue_ ++ ps } := by
  induction ps with
  | nil => intro v _; simp [exec]
  | cons d rest ih =>
      intro v hv
      simp only [List.map_cons, exec, step, hv]
      have := ih (v.Notify d) hv
      simpa [Notify] using this

theorem runWorker_add (m n : Nat) :
    ∀ v : DataVisitor, runWorker (m + n) v = runWorker n (runWorker m v) := by
  induction m with
  | zero => intro v; simp [runWorker]
  | succ k ih =>
      intro v
      rw [Nat.succ_add]
      exact ih _

/-- One turn of the inner loop: pop the front payload, call the callback with
it, take the mutex again.  A callback that returns, or throws a
`std::exception`, leaves the worker in the loop. -/
theorem inner_turn (cb : Callback) (hsafe : ∀ hist d, cb hist d ≠ CallResult.threwOther)
    (v : DataVisitor) (d : DataPtr) (rest : List DataPtr)
    (hcb : v.callback_ = some cb) (hpc : v.pc = .innerCheck) (hq : v.data_queue_ = d :: rest) :
    (runWorker 3 v).pc = .innerCheck ∧ (runWorker 3 v).data_queue_ = rest ∧
    (runWorker 3 v).invoked = v.invoked ++ [d] ∧
    (runWorker 3 v).stop_flag_ = v.stop_flag_ ∧ (runWorker 3 v).callback_ = some cb := by
  obtain ⟨c, q, sf, pc, inv, ce⟩ := v
  simp only at hcb hpc hq
  subst hcb hpc hq
  have h := hsafe inv d
  simp only [runWorker, ProcessData]
  cases hres : cb inv d with
  | returned => simp
  | threwStd what => simp
  | threwOther => exact absurd hres h

/-- The inner loop empties the queue, calling the callback with every payload
in queue order. -/
theorem drain (cb : Callback) (hsafe : ∀ hist d, cb hist d ≠ CallResult.threwOther)
    (q : List DataPtr) :
    ∀ v : DataVisitor, v.callback_ = some cb → v.pc = .innerCheck → v.data_queue_ = q →
      (runWorker (3 * q.length) v).pc = .innerCheck ∧
      (runWorker (3 * q.length) v).data_queue_ = [] ∧
      (runWorker (3 * q.length) v).invoked = v.invoked ++ q ∧
      (runWorker (3 * q.length) v).stop_flag_ = v.stop_flag_ ∧
      (runWorker (3 * q.length) v).callback_ = some cb := by
  induction q with
  | nil =>
      intro v hcb hpc hq
      simp [runWorker, hcb, hpc, hq]
  | cons d rest ih =>
      intro v hcb hpc hq
      obtain ⟨t1, t2, t3, t4, t5⟩ := inner_turn cb hsafe v d rest hcb hpc hq
      have hlen : 3 * (d :: rest).length = 3 + 3 * rest.length := by
        simp only [List.length_cons]; omega
      rw [hlen, runWorker_add]
      obtain ⟨r1, r2, r3, r4, r5⟩ := ih (runWorker 3 v) t5 t1 t2
      refine ⟨r1, r2, ?_, r4.trans t4, r5⟩
      rw [r3, t3]
      simp

/-- A running worker that finds the queue empty goes round the outer loop to
`cv_.wait` and sleeps there: queue and invocation record stay as they are. -/
theorem idle_stable (fuel : Nat) :
    ∀ v : DataVisitor, v.data_queue_ = [] → v.stop_flag_ = false →
      (v.pc = .innerCheck ∨ v.pc = .outerCheck ∨ v.pc = .waiting ∨ v.pc = .parking ∨
        v.pc = .blocked) →
      (runWorker fuel v).data_queue_ = [] ∧ (runWorker fuel v).invoked = v.invoked ∧
      (runWorker fuel v).pc.inflight = [] := by
  induction fuel with
  | zero =>
      intro v hq _ hpc
      refine ⟨hq, rfl, ?_⟩
      rcases hpc with h | h | h | h | h <;> simp [runWorker, h, WorkerPc.inflight]
  | succ n ih =>
      intro v hq hs hpc
      obtain ⟨c, q, sf, pc, inv, ce⟩ := v
      simp only at hq hs hpc
      subst hq hs
      rcases hpc with h | h | h | h | h <;> subst h
      · exact ih _ rfl rfl (Or.inr (Or.inl rfl))
      · exact ih _ rfl rfl (Or.inr (Or.inr (Or.inl rfl)))
      · exact ih _ rfl rfl (Or.inr (Or.inr (Or.inr (Or.inl rfl))))
      · exact ih _ rfl rfl (Or.inr (Or.inr (Or.inr (Or.inr rfl))))
      · exact ih _ rfl rfl (Or.inr (Or.inr (Or.inr (Or.inr rfl))))

/-- From the top of `ProcessData`, or from `cv_.wait`, awake or asleep, a
running worker with a non-empty queue is inside the inner loop after two
steps. -/
theorem enter_inner (v : DataVisitor) (d : DataPtr) (rest : List DataPtr)
    (hq : v.data_queue_ = d :: rest) (hs : v.stop_flag_ = false)
    (hpc : v.pc = .outerCheck ∨ v.pc = .waiting ∨ v.pc = .blocked) :
    ∃ k, k ≤ 2 ∧ runWorker k v = { v with pc := .innerCheck } := by
  obtain ⟨c, q, sf, pc, inv, ce⟩ := v
  simp only at hq hs hpc
  subst hq hs
  rcases hpc with h | h | h <;> subst h
  · exact ⟨2, le_refl _, rfl⟩
  · exact ⟨1, by omega, rfl⟩
  · exact ⟨1, by omega, rfl⟩

/-! ## Subscriber: the claims -/

/-- C2 (per-subscriber FIFO).  Take a running subscriber with a callback, an
empty queue and its worker at the top of the loop or in `cv_.wait`, about to
evaluate the predicate or asleep, and pass `P1..Pn` to `Notify`.
(a) If the callback throws nothing but `std::exception`, then after
`3 * n + 2` or more worker steps the queue is empty, nothing is held by the
worker, and the callback has been called with exactly `P1, ..., Pn` in this
order after the earlier calls.
(b) Under every interleaving of `Notify`, `Stop`, worker steps and wake-ups
without notification, for every callback, in each state in which the queue is empty and the worker holds no
payload the callback has been called with exactly the payloads passed to
`Notify`, in the order of the `Notify` calls, each once. -/
theorem C2_per_subscriber_fifo (v : DataVisitor) (cb : Callback) (ps : List DataPtr)
    (hcb : v.callback_ = some cb) (hq : v.data_queue_ = [])
    (hpc : v.pc = .outerCheck ∨ v.pc = .waiting ∨ v.pc = .blocked) :
    ((∀ hist d, cb hist d ≠ CallResult.threwOther) → v.stop_flag_ = false →
      ∀ fuel, 3 * ps.length + 2 ≤ fuel →
        ∃ v', exec v (ps.map Action.notify ++ List.replicate fuel Action.worker) = some v' ∧
          v'.data_queue_ = [] ∧ v'.pc.inflight = [] ∧ v'.invoked = v.invoked ++ ps) ∧
    (∀ as v', exec v as = some v' → v'.data_queue_ = [] → v'.pc.inflight = [] →
      v'.invoked = v.invoked ++ notified as) := by
  have hlock : v.pc.holdsLock = false := by
    rcases hpc with h | h | h <;> simp [h, WorkerPc.holdsLock]
  have hfl : v.pc.inflight = [] := by
    rcases hpc with h | h | h <;> simp [h, WorkerPc.inflight]
  have hidle : v.pc = .innerCheck ∨ v.pc = .outerCheck ∨ v.pc = .waiting ∨ v.pc = .parking ∨
      v.pc = .blocked := by
    rcases hpc with h | h | h
    · exact Or.inr (Or.inl h)
    · exact Or.inr (Or.inr (Or.inl h))
    · exact Or.inr (Or.inr (Or.inr (Or.inr h)))
  constructor
  · intro hsafe hs fuel hfuel
    rw [exec_append, exec_notifies ps v hlock]
    simp only [exec_workers, hq, List.nil_append]
    refine ⟨_, rfl, ?_⟩
    cases ps with
    | nil =>
        obtain ⟨i1, i2, i3⟩ := idle_stable fuel { v with data_queue_ := [] } rfl hs hidle
        exact ⟨i1, i3, by simpa using i2⟩
    | cons d rest =>
        obtain ⟨k, hk, hrun⟩ :=
          enter_inner { v with data_queue_ := d :: rest } d rest rfl hs hpc
        obtain ⟨r, rfl⟩ : ∃ r, fuel = k + (3 * (d :: rest).length + r) :=
          ⟨fuel - k - 3 * (d :: rest).length, by omega⟩
        rw [runWorker_add, hrun, runWorker_add]
        obtain ⟨r1, r2, r3, r4, _⟩ := drain cb hsafe (d :: rest)
          { v with data_queue_ := d :: rest, pc := .innerCheck } hcb rfl rfl
        obtain ⟨i1, i2, i3⟩ := idle_stable r _ r2 (r4.trans hs) (Or.inl r1)
        exact ⟨i1, i3, i2.trans r3⟩
  · intro as v' hrun hq' hfl'
    have hex : v.pc = .exited → v.stop_flag_ = true := by
      intro h
      rcases hpc with h' | h' | h' <;> rw [h'] at h <;> cases h
    obtain ⟨_, _, hcons⟩ := exec_invariant as v v' cb hcb hex hrun
    simpa [hq, hq', hfl, hfl'] using hcons

/-- C2 at a concrete input: a fresh subscriber receives the payloads 1, 2, 3
and its worker runs eleven steps. -/
theorem C2_per_subscriber_fifo_witness :
    ∃ v', exec (construct (some quietCallback))
        ([pkt 1, pkt 2, pkt 3].map Action.notify ++ List.replicate 11 Action.worker) = some v' ∧
      v'.data_queue_ = [] ∧ v'.pc.inflight = [] ∧ v'.invoked = [pkt 1, pkt 2, pkt 3] :=
  (C2_per_subscriber_fifo (construct (some quietCallback)) quietCallback [pkt 1, pkt 2, pkt 3]
    rfl rfl (Or.inl rfl)).1 (fun _ _ h => by simp [quietCallback] at h) rfl 11 (by decide)

theorem runWorker_terminated (fuel : Nat) (v : DataVisitor) (h : v.pc = .terminated) :
    runWorker fuel v = v := by
  induction fuel with
  | zero => rfl
  | succ n ih =>
      have hstep : v.ProcessData = v := by simp [ProcessData, h]
      simp only [runWorker, hstep, ih]

theorem runWorker_exited (fuel : Nat) (v : DataVisitor) (h : v.pc = .exited) :
    runWorker fuel v = v := by
  induction fuel with
  | zero => rfl
  | succ n ih =>
      have hstep : v.ProcessData = v := by simp [ProcessData, h]
      simp only [runWorker, hstep, ih]

/-- C6 (handler fault isolation), evaluated.  A subscriber receives the
payloads 1, 2, 3.
With a callback that executes `throw 42;` on payload 2 the handler
`catch (const std::exception& e)` does not match: after seven worker steps the
exception has left `ProcessData`, the worker is terminated, payload 3 is still
in the queue and is never given to the callback, however long the worker is
scheduled.
With a callback that throws a `std::exception` on payload 2 the fault is caught
and logged, and all three payloads have been given to the callback after
eleven steps. -/
theorem C6_non_std_exception_escapes (k : Nat) :
    exec (construct (some intThrowOn2))
        ([pkt 1, pkt 2, pkt 3].map Action.notify ++ List.replicate (7 + k) Action.worker) =
      some { callback_ := some intThrowOn2, data_queue_ := [pkt 3], stop_flag_ := false,
             pc := .terminated, invoked := [pkt 1, pkt 2], cerr := [] } ∧
    exec (construct (some stdThrowOn2))
        ([pkt 1, pkt 2, pkt 3].map Action.notify ++ List.replicate 11 Action.worker) =
      some { callback_ := some stdThrowOn2, data_queue_ := [], stop_flag_ := false,
             pc := .innerCheck, invoked := [pkt 1, pkt 2, pkt 3],
             cerr := ["Exception in callback: bad"] } := by
  constructor
  · have hlock : (construct (some intThrowOn2)).pc.holdsLock = false := rfl
    rw [exec_append, exec_notifies _ _ hlock]
    simp only [exec_workers, runWorker_add]
    have h7 : runWorker 7 { construct (some intThrowOn2) with
          data_queue_ := (construct (some intThrowOn2)).data_queue_ ++ [pkt 1, pkt 2, pkt 3] } =
        { callback_ := some intThrowOn2, data_queue_ := [pkt 3], stop_flag_ := false,
          pc := .terminated, invoked := [pkt 1, pkt 2], cerr := [] } := rfl
    rw [h7, runWorker_terminated k _ rfl]
  · rfl

/-- The worker is outside the loop after a step exactly when it was already
outside, or it stood at the outer condition with the stop flag set.  The queue
does not appear in the condition. -/
theorem ProcessData_exited_iff (v : DataVisitor) :
    v.ProcessData.pc = .exited ↔
      (v.pc = .exited ∨ (v.pc = .outerCheck ∧ v.stop_flag_ = true)) := by
  obtain ⟨c, q, sf, pc, inv, ce⟩ := v
  cases pc with
  | outerCheck => cases sf <;> simp [ProcessData]
  | waiting =>
      simp only [ProcessData]
      split <;> simp
  | parking => simp [ProcessData]
  | blocked =>
      simp only [ProcessData]
      split <;> simp
  | innerCheck => cases q <;> simp [ProcessData]
  | calling data =>
      simp only [ProcessData]
      repeat' split
      all_goals simp
  | relock => simp [ProcessData]
  | exited => simp [ProcessData]
  | terminated => simp [ProcessData]

/-- A worker step with any callback, empty or not.  `taken` are the payloads
the worker has finished with: a step takes at most one more, from the front of
the queue through the hands of the worker, and the callback, if there is one,
has been called with exactly the taken payloads. -/
theorem ProcessData_taken (v : DataVisitor) (taken : List DataPtr)
    (hinv : v.invoked = if v.callback_.isSome then taken else []) :
    ∃ taken', taken' ++ v.ProcessData.pc.inflight ++ v.ProcessData.data_queue_ =
        taken ++ v.pc.inflight ++ v.data_queue_ ∧
      v.ProcessData.invoked = if v.callback_.isSome then taken' else [] := by
  obtain ⟨c, q, sf, pc, inv, ce⟩ := v
  simp only at hinv
  cases pc with
  | outerCheck =>
      exact ⟨taken, by cases sf <;> simp [ProcessData, WorkerPc.inflight] <;> exact hinv⟩
  | waiting =>
      refine ⟨taken, ?_⟩
      simp only [ProcessData]
      split <;> simp [WorkerPc.inflight, hinv]
  | parking => exact ⟨taken, by simp [ProcessData, WorkerPc.inflight, hinv]⟩
  | blocked =>
      refine ⟨taken, ?_⟩
      simp only [ProcessData]
      split <;> simp [WorkerPc.inflight, hinv]
  | innerCheck => exact ⟨taken, by cases q <;> simp [ProcessData, WorkerPc.inflight, hinv]⟩
  | calling data =>
      refine ⟨taken ++ [data], ?_⟩
      cases c with
      | none => simpa [ProcessData, WorkerPc.inflight] using hinv
      | some cb =>
          simp only [Option.isSome_some, if_true] at hinv
          subst hinv
          simp only [ProcessData]
          split <;> simp [WorkerPc.inflight]
  | relock => exact ⟨taken, by simp [ProcessData, WorkerPc.inflight, hinv]⟩
  | exited => exact ⟨taken, by simp [ProcessData, hinv]⟩
  | terminated => exact ⟨taken, by simp [ProcessData, hinv]⟩

/-- Every event keeps the account of the payloads: those passed to `Notify`
are, in order, the taken ones, the one held by the worker, those in the queue;
and an exited worker has seen the stop flag. -/
theorem exec_taken (as : List Action) :
    ∀ (v v' : DataVisitor) (taken : List DataPtr),
      (v.invoked = if v.callback_.isSome then taken else []) →
      (v.pc = .exited → v.stop_flag_ = true) →
      exec v as = some v' →
      v'.callback_ = v.callback_ ∧ (v'.pc = .exited → v'.stop_flag_ = true) ∧
      ∃ taken', taken' ++ v'.pc.inflight ++ v'.data_queue_ =
          taken ++ v.pc.inflight ++ v.data_queue_ ++ notified as ∧
        v'.invoked = if v.callback_.isSome then taken' else [] := by
  induction as with
  | nil =>
      intro v v' taken hinv hex hrun
      cases hrun
      exact ⟨rfl, hex, taken, by simp [notified], hinv⟩
  | cons a rest ih =>
      intro v v' taken hinv hex hrun
      simp only [exec] at hrun
      split at hrun
      · cases hrun
      · rename_i w hw
        have key : w.callback_ = v.callback_ ∧ (w.pc = .exited → w.stop_flag_ = true) ∧
            ∃ t1, t1 ++ w.pc.inflight ++ w.data_queue_ =
                taken ++ v.pc.inflight ++ v.data_queue_ ++ notified [a] ∧
              w.invoked = if v.callback_.isSome then t1 else [] := by
          cases a with
          | notify data =>
              simp only [step] at hw
              split at hw
              · cases hw
              · cases hw
                exact ⟨rfl, hex, taken, by simp [Notify, notified], hinv⟩
          | stop =>
              cases hw
              exact ⟨rfl, fun _ => rfl, taken, by simp [Stop, notified, woken_inflight], hinv⟩
          | worker =>
              cases hw
              obtain ⟨t1, h1, h2⟩ := ProcessData_taken v taken hinv
              exact ⟨ProcessData_callback v, ProcessData_exited v hex, t1,
                by simp [notified, h1], h2⟩
          | wakeup =>
              cases hw
              exact ⟨rfl, fun h => hex ((woken_exited v.pc).1 h), taken,
                by simp [wakeup, notified, woken_inflight], hinv⟩
        obtain ⟨k1, k2, t1, k3, k4⟩ := key
        have hinv' : w.invoked = if w.callback_.isSome then t1 else [] := by rw [k1]; exact k4
        obtain ⟨r1, r2, t2, r3, r4⟩ := ih w v' t1 hinv' k2 hrun
        refine ⟨r1.trans k1, r2, t2, ?_, ?_⟩
        · rw [r3, k3, notified_cons a rest]
          simp
        · rw [k1] at r4
          exact r4

/-- One turn of the inner loop for any callback, empty or not: the stop flag is
not read. -/
theorem turn_any (v : DataVisitor) (d : DataPtr) (rest : List DataPtr)
    (hsafe : ∀ cb, v.callback_ = some cb → ∀ hist x, cb hist x ≠ CallResult.threwOther)
    (hpc : v.pc = .innerCheck) (hq : v.data_queue_ = d :: rest) :
    (runWorker 3 v).pc = .innerCheck ∧ (runWorker 3 v).data_queue_ = rest ∧
    (runWorker 3 v).invoked = v.invoked ++ (if v.callback_.isSome then [d] else []) ∧
    (runWorker 3 v).stop_flag_ = v.stop_flag_ ∧ (runWorker 3 v).callback_ = v.callback_ := by
  obtain ⟨c, q, sf, pc, inv, ce⟩ := v
  simp only at hsafe hpc hq
  subst hpc hq
  cases c with
  | none => simp [runWorker, ProcessData]
  | some cb =>
      have h := hsafe cb rfl inv d
      simp only [runWorker, ProcessData]
      cases hres : cb inv d with
      | returned => simp
      | threwStd what => simp
      | threwOther => exact absurd hres h

/-- The inner loop empties the queue whatever the stop flag says. -/
theorem drain_any (q : List DataPtr) :
    ∀ v : DataVisitor,
      (∀ cb, v.callback_ = some cb → ∀ hist x, cb hist x ≠ CallResult.threwOther) →
      v.pc = .innerCheck → v.data_queue_ = q →
      (runWorker (3 * q.length) v).pc = .innerCheck ∧
      (runWorker (3 * q.length) v).data_queue_ = [] ∧
      (runWorker (3 * q.length) v).invoked =
        v.invoked ++ (if v.callback_.isSome then q else []) ∧
      (runWorker (3 * q.length) v).stop_flag_ = v.stop_flag_ ∧
      (runWorker (3 * q.length) v).callback_ = v.callback_ := by
  induction q with
  | nil =>
      intro v _ hpc hq
      simp [runWorker, hpc, hq]
  | cons d rest ih =>
      intro v hsafe hpc hq
      obtain ⟨t1, t2, t3, t4, t5⟩ := turn_any v d rest hsafe hpc hq
      have hlen : 3 * (d :: rest).length = 3 + 3 * rest.length := by
        simp only [List.length_cons]; omega
      rw [hlen, runWorker_add]
      have hsafe' : ∀ cb, (runWorker 3 v).callback_ = some cb →
          ∀ hist x, cb hist x ≠ CallResult.threwOther := by
        intro cb hcb
        exact hsafe cb (t5 ▸ hcb)
      obtain ⟨r1, r2, r3, r4, r5⟩ := ih (runWorker 3 v) hsafe' t1 t2
      refine ⟨r1, r2, ?_, r4.trans t4, r5.trans t5⟩
      rw [r3, t3, t5]
      cases v.callback_ <;> simp

/-- A worker that is past the outer condition when the stop flag is set reaches
the inner loop: the predicate of `cv_.wait` holds, and a payload in the hands
of the worker is given to the callback first. -/
theorem reach_inner (v : DataVisitor) (d : DataPtr)
    (hsafe : ∀ cb, v.callback_ = some cb → ∀ hist x, cb hist x ≠ CallResult.threwOther)
    (hs : v.stop_flag_ = true)
    (hpc : v.pc = .waiting ∨ v.pc = .innerCheck ∨ v.pc = .relock ∨ v.pc = .calling d) :
    ∃ k, k ≤ 2 ∧ (runWorker k v).pc = .innerCheck ∧
      (runWorker k v).data_queue_ = v.data_queue_ ∧
      (runWorker k v).invoked = v.invoked ++ (if v.callback_.isSome then v.pc.inflight else []) ∧
      (runWorker k v).stop_flag_ = true ∧ (runWorker k v).callback_ = v.callback_ := by
  obtain ⟨c, q, sf, pc, inv, ce⟩ := v
  simp only at hsafe hs hpc
  subst hs
  rcases hpc with h | h | h | h <;> subst h
  · exact ⟨1, by omega, by simp [runWorker, ProcessData, WorkerPc.inflight]⟩
  · exact ⟨0, by omega, by simp [runWorker, WorkerPc.inflight]⟩
  · exact ⟨1, by omega, by simp [runWorker, ProcessData, WorkerPc.inflight]⟩
  · refine ⟨2, le_refl _, ?_⟩
    cases c with
    | none => simp [runWorker, ProcessData, WorkerPc.inflight]
    | some cb =>
        have h := hsafe cb rfl inv d
        simp only [runWorker, ProcessData]
        cases hres : cb inv d with
        | returned => simp [WorkerPc.inflight]
        | threwStd what => simp [WorkerPc.inflight]
        | threwOther => exact absurd hres h

/-- A stop request does not interrupt the drain.  A worker that is past the
outer condition when the flag is set gives the payload it holds and every
payload in the queue to the callback, in order, and then leaves the loop. -/
theorem drain_on_stop (v : DataVisitor) (d : DataPtr)
    (hsafe : ∀ cb, v.callback_ = some cb → ∀ hist x, cb hist x ≠ CallResult.threwOther)
    (hs : v.stop_flag_ = true)
    (hpc : v.pc = .waiting ∨ v.pc = .innerCheck ∨ v.pc = .relock ∨ v.pc = .calling d)
    (fuel : Nat) (hfuel : 3 * v.data_queue_.length + 4 ≤ fuel) :
    (runWorker fuel v).pc = .exited ∧ (runWorker fuel v).data_queue_ = [] ∧
    (runWorker fuel v).invoked =
      v.invoked ++ (if v.callback_.isSome then v.pc.inflight ++ v.data_queue_ else []) := by
  obtain ⟨k, hk, e1, e2, e3, e4, e5⟩ := reach_inner v d hsafe hs hpc
  have hsafe' : ∀ cb, (runWorker k v).callback_ = some cb →
      ∀ hist x, cb hist x ≠ CallResult.threwOther := by
    intro cb hcb
    exact hsafe cb (e5 ▸ hcb)
  obtain ⟨r1, r2, r3, r4, r5⟩ := drain_any v.data_queue_ (runWorker k v) hsafe' e1 e2
  have hexit : runWorker 2 (runWorker (3 * v.data_queue_.length) (runWorker k v)) =
      { runWorker (3 * v.data_queue_.length) (runWorker k v) with pc := .exited } := by
    generalize runWorker (3 * v.data_queue_.length) (runWorker k v) = w at r1 r2 r4
    obtain ⟨c, q, sf, pc, inv, ce⟩ := w
    simp only at r1 r2 r4
    subst r1 r2
    rw [e4] at r4
    subst r4
    rfl
  obtain ⟨r, rfl⟩ : ∃ r, fuel = k + (3 * v.data_queue_.length + (2 + r)) :=
    ⟨fuel - k - 3 * v.data_queue_.length - 2, by omega⟩
  rw [runWorker_add, runWorker_add, runWorker_add, hexit, runWorker_exited r _ rfl]
  refine ⟨rfl, r2, ?_⟩
  show (runWorker (3 * v.data_queue_.length) (runWorker k v)).invoked = _
  rw [r3, e3, e5]
  cases v.callback_ <;> simp

/-- C7, as stated, fails: `Notify(1)`, then `Stop()`, then the first step of
the worker.  The worker evaluates `while (!stop_flag_)`, finds the flag set and
leaves `ProcessData`; payload 1 is still in the queue and the callback was
never called. -/
theorem C7_exit_with_pending_payload :
    exec (construct (some quietCallback)) [.notify (pkt 1), .stop, .worker] =
      some (stoppedWith quietCallback [pkt 1]) ∧
    ¬ (∀ (cb : Callback) (as : List Action) (v : DataVisitor),
        exec (construct (some cb)) as = some v → v.pc = .exited →
          v.stop_flag_ = true ∧ v.data_queue_ = [] ∧ v.invoked = notified as) := by
  refine ⟨rfl, fun h => ?_⟩
  have h1 := (h quietCallback [.notify (pkt 1), .stop, .worker]
    (stoppedWith quietCallback [pkt 1]) rfl rfl).2.1
  simp [stoppedWith] at h1

/-- C7, amended.  In every state reached from construction, with any callback
or with an empty one, by an interleaving of `Notify`, `Stop`, worker steps and
wake-ups:
(1) the worker has exited only if the stop flag is set;
(2) the payloads passed to `Notify` are, in order and without repetition, those
the worker has taken and finished with, then the one it holds, then those in
the queue; a callback has been called with exactly the taken payloads in this
order, each once, and with an empty callback no call is made;
(3, 4) so with a callback, and once the worker has exited, every payload passed
to `Notify` was either given to the callback exactly once or is still in the
queue, and the delivered ones precede the pending ones;
(5) the worker leaves the loop in a step exactly when it stands at the outer
condition with the stop flag set, whatever the queue holds;
(6) the inner loop does not read the stop flag: a worker that is at
`cv_.wait` about to evaluate the predicate, or inside the inner loop, when the
flag is set, and whose callback throws nothing but `std::exception`, gives the
payload it holds and every payload in the queue to the callback and has exited
after `3 * n + 4` steps, with the queue empty. -/
theorem C7_exit_requires_stop_and_loses_nothing_delivered (callback : Option Callback)
    (as : List Action) (v : DataVisitor) (hrun : exec (construct callback) as = some v) :
    (v.pc = .exited → v.stop_flag_ = true) ∧
    (∃ taken, taken ++ v.pc.inflight ++ v.data_queue_ = notified as ∧
      v.invoked = if callback.isSome then taken else []) ∧
    (callback.isSome = true → v.invoked ++ v.pc.inflight ++ v.data_queue_ = notified as) ∧
    (callback.isSome = true → v.pc = .exited → v.invoked ++ v.data_queue_ = notified as) ∧
    (∀ w : DataVisitor, w.ProcessData.pc = .exited ↔
      (w.pc = .exited ∨ (w.pc = .outerCheck ∧ w.stop_flag_ = true))) ∧
    (∀ (w : DataVisitor) (d : DataPtr) (fuel : Nat),
      (∀ cb, w.callback_ = some cb → ∀ hist x, cb hist x ≠ CallResult.threwOther) →
      w.stop_flag_ = true →
      (w.pc = .waiting ∨ w.pc = .innerCheck ∨ w.pc = .relock ∨ w.pc = .calling d) →
      3 * w.data_queue_.length + 4 ≤ fuel →
        (runWorker fuel w).pc = .exited ∧ (runWorker fuel w).data_queue_ = [] ∧
        (runWorker fuel w).invoked =
          w.invoked ++ (if w.callback_.isSome then w.pc.inflight ++ w.data_queue_ else [])) := by
  have hex : (construct callback).pc = .exited → (construct callback).stop_flag_ = true := by
    intro h; cases h
  have hinv : (construct callback).invoked =
      if (construct callback).callback_.isSome then [] else [] := by
    simp [construct]
  obtain ⟨_, h2, taken, h3, h4⟩ := exec_taken as (construct callback) v [] hinv hex hrun
  have h3' : taken ++ v.pc.inflight ++ v.data_queue_ = notified as := by
    simpa [construct, WorkerPc.inflight] using h3
  have h4' : v.invoked = if callback.isSome then taken else [] := h4
  have h5 : callback.isSome = true → v.invoked ++ v.pc.inflight ++ v.data_queue_ = notified as := by
    intro hc
    rw [h4', if_pos hc]
    exact h3'
  refine ⟨h2, ⟨taken, h3', h4'⟩, h5, ?_, ProcessData_exited_iff, ?_⟩
  · intro hc hpc
    simpa [hpc, WorkerPc.inflight] using h5 hc
  · intro w d fuel hsafe hs hpc hfuel
    exact drain_on_stop w d hsafe hs hpc fuel hfuel

/-- C7 (amended) at two concrete interleavings.  `Stop()` arrives while the
worker is inside the inner loop with payloads 1 and 2 in the queue: both are
delivered before the worker exits.  `Stop()` arrives while payload 2 is in the
queue and the worker stands at the outer condition: the worker exits, payload
2 stays in the queue. -/
theorem C7_exit_requires_stop_and_loses_nothing_delivered_witness :
    exec (construct (some quietCallback))
        [.notify (pkt 1), .notify (pkt 2), .worker, .worker, .stop] =
      some (stoppingWith quietCallback [pkt 1, pkt 2]) ∧
    exec (construct (some quietCallback))
        [.notify (pkt 1), .notify (pkt 2), .worker, .worker, .stop,
         .worker, .worker, .worker, .worker, .worker, .worker, .worker, .worker] =
      some { stoppedWith quietCallback [] with invoked := [pkt 1, pkt 2] } ∧
    ((runWorker 10 (stoppingWith quietCallback [pkt 1, pkt 2])).pc = .exited ∧
     (runWorker 10 (stoppingWith quietCallback [pkt 1, pkt 2])).data_queue_ = [] ∧
     (runWorker 10 (stoppingWith quietCallback [pkt 1, pkt 2])).invoked =
       [pkt 1, pkt 2]) ∧
    exec (construct (some quietCallback))
        [.notify (pkt 1), .worker, .worker, .worker, .worker, .worker, .worker,
         .notify (pkt 2), .stop, .worker] =
      some { stoppedWith quietCallback [pkt 2] with invoked := [pkt 1] } ∧
    [pkt 1] ++ [pkt 2] = notified
        [.notify (pkt 1), .worker, .worker, .worker, .worker, .worker, .worker,
         .notify (pkt 2), .stop, .worker] :=
  ⟨rfl, rfl,
   (C7_exit_requires_stop_and_loses_nothing_delivered (some quietCallback)
      [.notify (pkt 1), .notify (pkt 2), .worker, .worker, .stop]
      (stoppingWith quietCallback [pkt 1, pkt 2]) rfl).2.2.2.2.2
      (stoppingWith quietCallback [pkt 1, pkt 2]) none 10
      (fun cb hcb hist x => by
        have hq : cb = quietCallback := (Option.some.inj hcb).symm
        subst hq
        simp [quietCallback])
      rfl (Or.inr (Or.inl rfl)) (by decide),
   rfl,
   (C7_exit_requires_stop_and_loses_nothing_delivered (some quietCallback)
      [.notify (pkt 1), .worker, .worker, .worker, .worker, .worker, .worker,
       .notify (pkt 2), .stop, .worker]
      { stoppedWith quietCallback [pkt 2] with invoked := [pkt 1] } rfl).2.2.2.1 rfl rfl⟩

/-- C8, as stated, fails: after `Stop()` and the exit of the worker,
`Notify(1)` puts payload 1 into the queue; the state is not the one before the
call. -/
theorem C8_notify_after_exit_changes_queue :
    exec (construct (some quietCallback)) [.stop, .worker] =
      some (stoppedWith quietCallback []) ∧
    (stoppedWith quietCallback []).pc = .exited ∧
    (stoppedWith quietCallback []).step (.notify (pkt 1)) =
      some (stoppedWith quietCallback [pkt 1]) ∧
    (stoppedWith quietCallback []).Notify (pkt 1) ≠ stoppedWith quietCallback [] := by
  refine ⟨rfl, rfl, rfl, fun h => ?_⟩
  have hq := congrArg DataVisitor.data_queue_ h
  simp [Notify, stoppedWith] at hq

/-- C8, amended.  On a subscriber whose worker has exited, `Notify(P)` is
possible and does what it does in every state: it appends `P` at the back of
the queue and changes nothing else.  The worker takes no further step that
changes the state, so `P` stays in the queue and is never given to the
callback. -/
theorem C8_notify_after_exit_appends (v : DataVisitor) (data : DataPtr)
    (hpc : v.pc = .exited) :
    v.step (.notify data) = some (v.Notify data) ∧
    v.Notify data = { v with data_queue_ := v.data_queue_ ++ [data] } ∧
    (∀ fuel, runWorker fuel (v.Notify data) = v.Notify data) ∧
    (∀ fuel, (runWorker fuel (v.Notify data)).invoked = v.invoked) ∧
    (∀ fuel, (runWorker fuel (v.Notify data)).data_queue_ = v.data_queue_ ++ [data]) := by
  have hn : (v.Notify data).pc = .exited := hpc
  refine ⟨?_, rfl, fun fuel => runWorker_exited fuel _ hn, fun fuel => ?_, fun fuel => ?_⟩
  · simp [step, hpc, WorkerPc.holdsLock]
  · rw [runWorker_exited fuel _ hn]; rfl
  · rw [runWorker_exited fuel _ hn]; rfl

/-- C8 (amended) at a concrete input: a stopped subscriber with payload 1
pending receives payload 2. -/
theorem C8_notify_after_exit_appends_witness :
    (stoppedWith quietCallback [pkt 1]).pc = .exited ∧
    (stoppedWith quietCallback [pkt 1]).step (.notify (pkt 2)) =
      some (stoppedWith quietCallback [pkt 1, pkt 2]) ∧
    (runWorker 5 ((stoppedWith quietCallback [pkt 1]).Notify (pkt 2))).invoked = [] :=
  ⟨rfl,
   (C8_notify_after_exit_appends (stoppedWith quietCallback [pkt 1]) (pkt 2) rfl).1,
   (C8_notify_after_exit_appends (stoppedWith quietCallback [pkt 1]) (pkt 2) rfl).2.2.2.1 5⟩

/-- The guard `if (visitor)` keeps `operator->` away from every null handle:
the loop with explicit pointer operations always has a result, the one of
`dispatchLoop`. -/
theorem dispatchLoopDeref_eq (data : DataPtr) (vs : List VisitorPtr) :
    ∀ heap : Addr → DataVisitor,
      dispatchLoopDeref data vs heap = some (dispatchLoop data vs heap) := by
  induction vs with
  | nil => intro heap; rfl
  | cons x rest ih =>
      intro heap
      cases x with
      | none => simpa [dispatchLoopDeref, dispatchLoop] using ih heap
      | some a => simpa [dispatchLoopDeref, dispatchLoop] using ih _

/-- The loop calls `Notify` on the non-null entries, in the order of the
vector. -/
theorem dispatchLoop_eq_notifyEach (data : DataPtr) (vs : List VisitorPtr) :
    ∀ heap : Addr → DataVisitor,
      dispatchLoop data vs heap = notifyEach data (vs.filterMap id) heap := by
  induction vs with
  | nil => intro heap; rfl
  | cons x rest ih =>
      intro heap
      cases x with
      | none => simpa [dispatchLoop] using ih heap
      | some a => simpa [dispatchLoop, notifyEach] using ih _

/-- C12 (null handles are tolerated).  `RegisterVisitor` stores a null handle
as a new last entry like any other handle.  For every registry content
`Dispatch(P)` never applies `operator->` to a null handle: the loop with the
pointer operations spelled out has a result, the memory of `Dispatch`.  The
calls `Notify(P)` made are those on the non-null entries, in registry order: a
null entry between `pre` and `post` is skipped and the entries of `pre` and of
`post` are all served; every object receives one copy of `P` per entry that
holds its address. -/
theorem C12_null_handles_tolerated (s : Program) (data : DataPtr) :
    (RegisterVisitor s none).visitors_ = s.visitors_ ++ [none] ∧
    (RegisterVisitor s none).visitors_.length = s.visitors_.length + 1 ∧
    dispatchLoopDeref data s.visitors_ s.heap = some (Dispatch s data).heap ∧
    (Dispatch s data).heap = notifyEach data (s.visitors_.filterMap id) s.heap ∧
    (∀ pre post : List VisitorPtr,
      (Dispatch { visitors_ := pre ++ none :: post, heap := s.heap } data).heap =
        notifyEach data (pre.filterMap id ++ post.filterMap id) s.heap) ∧
    (∀ a : Addr, ((Dispatch s data).heap a).data_queue_ =
      (s.heap a).data_queue_ ++ List.replicate (s.visitors_.count (some a)) data) := by
  refine ⟨rfl, by simp [RegisterVisitor], dispatchLoopDeref_eq _ _ _,
    dispatchLoop_eq_notifyEach _ _ _, ?_, ?_⟩
  · intro pre post
    show dispatchLoop data (pre ++ none :: post) s.heap = _
    rw [dispatchLoop_eq_notifyEach]
    simp [List.filterMap_append]
  · intro a
    show (dispatchLoop data s.visitors_ s.heap a).data_queue_ = _
    rw [dispatchLoop_apply]

/-! ## Threads calling the registry: lemmas -/

theorem Program_eq (a b : Program) (h1 : a.visitors_ = b.visitors_) (h2 : a.heap = b.heap) :
    a = b := by
  cases a; cases b; simp_all

theorem dispatchLoop_append (data : DataPtr) (xs ys : List VisitorPtr) :
    ∀ heap : Addr → DataVisitor,
      dispatchLoop data (xs ++ ys) heap = dispatchLoop data ys (dispatchLoop data xs heap) := by
  induction xs with
  | nil => intro heap; rfl
  | cons x rest ih =>
      intro heap
      cases x with
      | none => simpa [dispatchLoop] using ih heap
      | some a => simpa [dispatchLoop] using ih _

/-- One more turn of the loop of `Dispatch`, on entry `i` of the vector. -/
theorem dispatchLoop_take_succ (data : DataPtr) (vs : List VisitorPtr) (i : Nat)
    (x : VisitorPtr) (hx : vs[i]? = some x) (heap : Addr → DataVisitor) :
    dispatchLoop data (vs.take (i + 1)) heap =
      dispatchLoop data [x] (dispatchLoop data (vs.take i) heap) := by
  have htake : vs.take (i + 1) = vs.take i ++ [x] := by
    rw [List.take_succ]
    simp [hx]
  rw [htake, dispatchLoop_append]

theorem replay_append (calls : Nat → Call) (log : List Nat) (t : Nat) :
    ∀ mem : Program, replay calls mem (log ++ [t]) = (calls t).run (replay calls mem log) := by
  induction log with
  | nil => intro mem; rfl
  | cons u rest ih => intro mem; exact ih _

theorem setPc_same (pc : Nat → ThreadPc) (t : Nat) (x : ThreadPc) : setPc pc t x t = x := by
  simp [setPc]

theorem setPc_other (pc : Nat → ThreadPc) (t u : Nat) (x : ThreadPc) (h : u ≠ t) :
    setPc pc t x u = pc u := by
  simp [setPc, h]

/-- Outside the critical sections nothing is required of the memory. -/
theorem atPosition_of_not_critical (calls : Nat → Call) (base mem : Program) (t : Nat)
    (x : ThreadPc) (h : x.critical = false) : atPosition calls base mem t x := by
  cases x <;> simp [ThreadPc.critical] at h <;> simp [atPosition]

/-- While one thread owns the mutex no other thread is in a critical section. -/
theorem others_not_critical (calls : Nat → Call) (init : Program) (s : Shared)
    (hs : Consistent calls init s) (u : Nat) (hu : (s.pc u).critical = true) (t : Nat)
    (ht : t ≠ u) : (s.pc t).critical = false := by
  have hown := (hs.owner u).1 hu
  cases hc : (s.pc t).critical with
  | false => rfl
  | true =>
      have := (hs.owner t).1 hc
      rw [hown] at this
      exact absurd (Option.some.inj this).symm ht

theorem start_consistent (calls : Nat → Call) (init : Program) :
    Consistent calls init (Shared.start init) where
  owner := by intro t; simp [Shared.start, ThreadPc.critical]
  free := by intro _; rfl
  held := by intro t; simp [Shared.start, atPosition]
  logged := by intro t; simp [Shared.start]
  once := by simp [Shared.start]

/-- Taking the mutex: possible only when it is free, and then the memory is
the result of the finished calls. -/
theorem step_idle (calls : Nat → Call) (init : Program) (s : Shared)
    (hs : Consistent calls init s) (u : Nat) (hpc : s.pc u = .idle) :
    Consistent calls init (threadStep calls s u) := by
  cases hm : s.mutex_ with
  | some w =>
      have hstep : threadStep calls s u = s := by simp [threadStep, hpc, hm]
      rw [hstep]; exact hs
  | none =>
      have hstep : threadStep calls s u =
          { s with mutex_ := some u, pc := setPc s.pc u .entered } := by
        simp [threadStep, hpc, hm]
      rw [hstep]
      refine ⟨?_, ?_, ?_, ?_, hs.once⟩
      · intro t
        by_cases ht : t = u
        · subst ht; simp [setPc_same, ThreadPc.critical]
        · have h1 : (s.pc t).critical = false := by
            cases hc : (s.pc t).critical with
            | false => rfl
            | true =>
                have := (hs.owner t).1 hc
                rw [hm] at this
                cases this
          simp [setPc_other _ _ _ _ ht, h1, Ne.symm ht]
      · intro h; cases h
      · intro t
        by_cases ht : t = u
        · subst ht
          simp only [setPc_same]
          exact hs.free hm
        · simp only [setPc_other _ _ _ _ ht]
          exact hs.held t
      · intro t
        by_cases ht : t = u
        · subst ht
          simp only [setPc_same]
          constructor
          · intro hmem
            have := (hs.logged t).1 hmem
            rw [hpc] at this
            cases this
          · intro h; cases h
        · simp only [setPc_other _ _ _ _ ht]
          exact hs.logged t

theorem critical_ne_done (x : ThreadPc) (h : x.critical = true) : x ≠ .done := by
  intro hx; subst hx; simp [ThreadPc.critical] at h

/-- A step of the owner that stays inside its critical section. -/
theorem step_inside (calls : Nat → Call) (init : Program) (s : Shared)
    (hs : Consistent calls init s) (u : Nat) (hu : (s.pc u).critical = true)
    (x : ThreadPc) (hx : x.critical = true) (mem' : Program)
    (hpos : atPosition calls (replay calls init s.log) mem' u x) :
    Consistent calls init { s with mem := mem', pc := setPc s.pc u x } := by
  have hown := (hs.owner u).1 hu
  refine ⟨?_, ?_, ?_, ?_, hs.once⟩
  · intro t
    by_cases ht : t = u
    · subst ht; simp [setPc_same, hx, hown]
    · simp only [setPc_other _ _ _ _ ht]
      exact hs.owner t
  · intro h
    rw [show s.mutex_ = none from h] at hown
    cases hown
  · intro t
    by_cases ht : t = u
    · subst ht
      simp only [setPc_same]
      exact hpos
    · simp only [setPc_other _ _ _ _ ht]
      exact atPosition_of_not_critical _ _ _ _ _ (others_not_critical calls init s hs u hu t ht)
  · intro t
    by_cases ht : t = u
    · subst ht
      simp only [setPc_same]
      constructor
      · intro hmem
        exact absurd ((hs.logged t).1 hmem) (critical_ne_done _ hu)
      · intro h
        exact absurd h (critical_ne_done _ hx)
    · simp only [setPc_other _ _ _ _ ht]
      exact hs.logged t

/-- The statement after the guard: the body of `RegisterVisitor` or of
`UnregisterVisitor`, or the start of the loop of `Dispatch`. -/
theorem step_entered (calls : Nat → Call) (init : Program) (s : Shared)
    (hs : Consistent calls init s) (u : Nat) (hpc : s.pc u = .entered) :
    Consistent calls init (threadStep calls s u) := by
  have hu : (s.pc u).critical = true := by rw [hpc]; rfl
  have hmem : s.mem = replay calls init s.log := by
    have := hs.held u
    rw [hpc] at this
    exact this
  cases hc : calls u with
  | register visitor =>
      have hstep : threadStep calls s u =
          { s with mem := RegisterVisitor s.mem visitor, pc := setPc s.pc u .leaving } := by
        simp [threadStep, hpc, hc]
      rw [hstep]
      refine step_inside calls init s hs u hu .leaving rfl _ ?_
      show RegisterVisitor s.mem visitor = (calls u).run _
      rw [hc, hmem]; rfl
  | unregister visitor =>
      have hstep : threadStep calls s u =
          { s with mem := UnregisterVisitor s.mem visitor, pc := setPc s.pc u .leaving } := by
        simp [threadStep, hpc, hc]
      rw [hstep]
      refine step_inside calls init s hs u hu .leaving rfl _ ?_
      show UnregisterVisitor s.mem visitor = (calls u).run _
      rw [hc, hmem]; rfl
  | dispatch data =>
      have hstep : threadStep calls s u =
          { s with mem := s.mem, pc := setPc s.pc u (.inLoop data s.mem.visitors_ 0) } := by
        simp [threadStep, hpc, hc]
      rw [hstep]
      refine step_inside calls init s hs u hu (.inLoop data s.mem.visitors_ 0) rfl _ ?_
      show calls u = .dispatch data ∧ _
      rw [hmem]
      exact ⟨hc, rfl, rfl, rfl⟩

/-- One turn of the loop of `Dispatch`: the vector is the one the iterators
were taken from, so the turn serves entry `i` or ends the loop. -/
theorem step_inLoop (calls : Nat → Call) (init : Program) (s : Shared)
    (hs : Consistent calls init s) (u : Nat) (data : DataPtr) (snap : List VisitorPtr)
    (i : Nat) (hpc : s.pc u = .inLoop data snap i) :
    Consistent calls init (threadStep calls s u) := by
  have hu : (s.pc u).critical = true := by rw [hpc]; rfl
  have hheld := hs.held u
  rw [hpc] at hheld
  obtain ⟨hcall, hsnap, hvis, hheap⟩ := hheld
  have hsame : s.mem.visitors_ = snap := by rw [hvis, hsnap]
  cases hget : snap[i]? with
  | none =>
      have hstep : threadStep calls s u =
          { s with mem := s.mem, pc := setPc s.pc u .leaving } := by
        simp [threadStep, hpc, hsame, hget]
      rw [hstep]
      refine step_inside calls init s hs u hu .leaving rfl _ ?_
      show s.mem = (calls u).run _
      rw [hcall]
      have hlen : snap.length ≤ i := List.getElem?_eq_none_iff.mp hget
      apply Program_eq
      · exact hvis
      · rw [hheap, List.take_of_length_le hlen, hsnap]
        rfl
  | some x =>
      cases x with
      | none =>
          have hstep : threadStep calls s u =
              { s with mem := s.mem, pc := setPc s.pc u (.inLoop data snap (i + 1)) } := by
            simp [threadStep, hpc, hsame, hget]
          rw [hstep]
          refine step_inside calls init s hs u hu (.inLoop data snap (i + 1)) rfl _ ?_
          refine ⟨hcall, hsnap, hvis, ?_⟩
          rw [dispatchLoop_take_succ data snap i none hget, ← hheap]
          rfl
      | some a =>
          have hstep : threadStep calls s u =
              { s with mem := { s.mem with
                                  heap := store s.mem.heap a ((s.mem.heap a).Notify data) },
                       pc := setPc s.pc u (.inLoop data snap (i + 1)) } := by
            simp [threadStep, hpc, hsame, hget]
          rw [hstep]
          refine step_inside calls init s hs u hu (.inLoop data snap (i + 1)) rfl _ ?_
          refine ⟨hcall, hsnap, hvis, ?_⟩
          show store s.mem.heap a ((s.mem.heap a).Notify data) = _
          rw [dispatchLoop_take_succ data snap i (some a) hget, ← hheap]
          rfl

/-- Releasing the mutex: the call of the owner joins the finished calls. -/
theorem step_leaving (calls : Nat → Call) (init : Program) (s : Shared)
    (hs : Consistent calls init s) (u : Nat) (hpc : s.pc u = .leaving) :
    Consistent calls init (threadStep calls s u) := by
  have hu : (s.pc u).critical = true := by rw [hpc]; rfl
  have hmem : s.mem = (calls u).run (replay calls init s.log) := by
    have := hs.held u
    rw [hpc] at this
    exact this
  have hnot : u ∉ s.log := by
    intro h
    have := (hs.logged u).1 h
    rw [hpc] at this
    cases this
  have hstep : threadStep calls s u =
      { s with mutex_ := none, pc := setPc s.pc u .done, log := s.log ++ [u] } := by
    simp [threadStep, hpc]
  rw [hstep]
  refine ⟨?_, ?_, ?_, ?_, ?_⟩
  · intro t
    by_cases ht : t = u
    · subst ht; simp [setPc_same, ThreadPc.critical]
    · simp [setPc_other _ _ _ _ ht, others_not_critical calls init s hs u hu t ht]
  · intro _
    show s.mem = replay calls init (s.log ++ [u])
    rw [replay_append, hmem]
  · intro t
    by_cases ht : t = u
    · subst ht
      simp only [setPc_same]
      trivial
    · simp only [setPc_other _ _ _ _ ht]
      exact atPosition_of_not_critical _ _ _ _ _ (others_not_critical calls init s hs u hu t ht)
  · intro t
    by_cases ht : t = u
    · subst ht; simp [setPc_same]
    · simp only [setPc_other _ _ _ _ ht]
      rw [← hs.logged t]
      simp [ht]
  · show (s.log ++ [u]).Nodup
    rw [List.nodup_append]
    refine ⟨hs.once, by simp, ?_⟩
    intro a ha hb
    simp only [List.mem_singleton] at hb
    subst hb
    exact hnot ha

/-- Every step of every thread keeps the state consistent. -/
theorem step_consistent (calls : Nat → Call) (init : Program) (s : Shared)
    (hs : Consistent calls init s) (u : Nat) :
    Consistent calls init (threadStep calls s u) := by
  cases hpc : s.pc u with
  | idle => exact step_idle calls init s hs u hpc
  | entered => exact step_entered calls init s hs u hpc
  | inLoop data snap i => exact step_inLoop calls init s hs u data snap i hpc
  | leaving => exact step_leaving calls init s hs u hpc
  | done =>
      have hstep : threadStep calls s u = s := by simp [threadStep, hpc]
      rw [hstep]; exact hs
  | torn =>
      have hstep : threadStep calls s u = s := by simp [threadStep, hpc]
      rw [hstep]; exact hs

theorem run_consistent (calls : Nat → Call) (init : Program) (sched : List Nat) :
    ∀ s : Shared, Consistent calls init s → Consistent calls init (runThreads calls s sched) := by
  induction sched with
  | nil => intro s hs; exact hs
  | cons t rest ih => intro s hs; exact ih _ (step_consistent calls init s hs t)

/-- A thread that does not own the mutex does not touch the memory. -/
theorem step_mem_of_not_owner (calls : Nat → Call) (init : Program) (s : Shared)
    (hs : Consistent calls init s) (u : Nat) (h : s.mutex_ ≠ some u) :
    (threadStep calls s u).mem = s.mem := by
  have hc : (s.pc u).critical = false := by
    cases hcr : (s.pc u).critical with
    | false => rfl
    | true => exact absurd ((hs.owner u).1 hcr) h
  cases hpc : s.pc u with
  | idle => cases hm : s.mutex_ <;> simp [threadStep, hpc, hm]
  | done => simp [threadStep, hpc]
  | entered => rw [hpc] at hc; cases hc
  | inLoop data snap i => rw [hpc] at hc; cases hc
  | leaving => rw [hpc] at hc; cases hc
  | torn => rw [hpc] at hc; cases hc

/-! ## Threads calling the registry: the claim -/

/-- C11 (exclusive access to `visitors_`).  Threads call `RegisterVisitor`,
`UnregisterVisitor` and `Dispatch`, one call each, and take their steps in any
order.  In every state they reach:
at most one thread is inside a critical section, and it is the owner of
`mutex_`;
a thread that does not own the mutex does not change the memory;
a `Dispatch` inside its loop finds `visitors_` equal to the content it took
its iterators from, which is the content left by the calls finished before it
took the mutex, and it has served exactly the first `i` entries of it;
no thread ever meets a vector modified under its iterators;
a thread about to release the mutex has brought the memory to the result of
its call executed in one piece on the memory it found;
whenever the mutex is free, the memory is the result of executing the finished
calls one after the other in the order they released the mutex, so every
`Dispatch` has served each entry of one registry content and no other;
the log holds each finished thread once. -/
theorem C11_registry_calls_are_atomic (calls : Nat → Call) (init : Program)
    (sched : List Nat) :
    (∀ t u, ((runThreads calls (Shared.start init) sched).pc t).critical = true →
      ((runThreads calls (Shared.start init) sched).pc u).critical = true → t = u) ∧
    (∀ t, ((runThreads calls (Shared.start init) sched).pc t).critical = true ↔
      (runThreads calls (Shared.start init) sched).mutex_ = some t) ∧
    (∀ u, (runThreads calls (Shared.start init) sched).mutex_ ≠ some u →
      (threadStep calls (runThreads calls (Shared.start init) sched) u).mem =
        (runThreads calls (Shared.start init) sched).mem) ∧
    (∀ t data snap i,
      (runThreads calls (Shared.start init) sched).pc t = .inLoop data snap i →
        (runThreads calls (Shared.start init) sched).mem.visitors_ = snap ∧
        snap = (replay calls init (runThreads calls (Shared.start init) sched).log).visitors_ ∧
        (runThreads calls (Shared.start init) sched).mem.heap =
          dispatchLoop data (snap.take i)
            (replay calls init (runThreads calls (Shared.start init) sched).log).heap) ∧
    (∀ t, (runThreads calls (Shared.start init) sched).pc t ≠ .torn) ∧
    (∀ t, (runThreads calls (Shared.start init) sched).pc t = .leaving →
      (runThreads calls (Shared.start init) sched).mem =
        (calls t).run (replay calls init (runThreads calls (Shared.start init) sched).log)) ∧
    ((runThreads calls (Shared.start init) sched).mutex_ = none →
      (runThreads calls (Shared.start init) sched).mem =
        replay calls init (runThreads calls (Shared.start init) sched).log) ∧
    (runThreads calls (Shared.start init) sched).log.Nodup ∧
    (∀ t, t ∈ (runThreads calls (Shared.start init) sched).log ↔
      (runThreads calls (Shared.start init) sched).pc t = .done) := by
  have hs := run_consistent calls init sched _ (start_consistent calls init)
  refine ⟨?_, hs.owner, step_mem_of_not_owner calls init _ hs, ?_, ?_, ?_, hs.free, hs.once,
    hs.logged⟩
  · intro t u ht hu
    have h1 := (hs.owner t).1 ht
    have h2 := (hs.owner u).1 hu
    rw [h1] at h2
    exact Option.some.inj h2
  · intro t data snap i hpc
    have h := hs.held t
    rw [hpc] at h
    obtain ⟨_, hsnap, hvis, hheap⟩ := h
    exact ⟨by rw [hvis, hsnap], hsnap, hheap⟩
  · intro t hpc
    have h := hs.held t
    rw [hpc] at h
    exact h
  · intro t hpc
    have h := hs.held t
    rw [hpc] at h
    exact h

/-- C11 at a concrete schedule: the mutex is free at the end, the three calls
have finished in the order dispatch, unregister, register, and the memory is
the one of that sequential run: the object at address 0 has received payload 1
twice and the registry holds the null entry and the handle of address 1. -/
theorem C11_registry_calls_are_atomic_witness :
    (runThreads sampleCalls (Shared.start sampleProgram) sampleSchedule).mutex_ = none ∧
    (runThreads sampleCalls (Shared.start sampleProgram) sampleSchedule).log = [0, 1, 2] ∧
    (runThreads sampleCalls (Shared.start sampleProgram) sampleSchedule).mem =
      replay sampleCalls sampleProgram [0, 1, 2] ∧
    (replay sampleCalls sampleProgram [0, 1, 2]).visitors_ = [none, some 1] ∧
    ((replay sampleCalls sampleProgram [0, 1, 2]).heap 0).data_queue_ = [pkt 1, pkt 1] :=
  ⟨rfl, rfl,
   (C11_registry_calls_are_atomic sampleCalls sampleProgram sampleSchedule).2.2.2.2.2.2.1 rfl,
   rfl, rfl⟩

end Spec2Proof
